import Mathlib

/-!
Shallow embedding of the openauth credential-lifecycle core: the key codec
(joinKey / splitKey / encode), the in-memory ordered KV store (MemoryStorage
in packages/openauth/src/storage/memory.ts), the OAuth token store facade
(createKvStore in storage.ts), and the client-side refresh / verify engine
(client.ts).

JavaScript strings are modelled as lists of characters.  The comparison
performed by String.prototype.localeCompare in MemoryStorage.search is
modelled as three-way lexicographic comparison of the character sequences.
-/

namespace OpenAuth

/-- Segment of a hierarchical key: a JavaScript string modelled as a list of characters. -/
abbrev Seg : Type := List Char

/-- Flattened key, the result of joinKey: also a JavaScript string. -/
abbrev Key : Type := List Char

/-- Reserved separator character: String.fromCharCode(0x1f) in storage.ts. -/
def SEPERATOR : Char := Char.ofNat 0x1f

/-- Model of joinKey in storage.ts: key.join(SEPERATOR). -/
def joinKey (key : List Seg) : Key := List.intercalate [SEPERATOR] key

/-- Model of splitKey in storage.ts: key.split(SEPERATOR). -/
def splitKey (k : Key) : List Seg := k.splitOn SEPERATOR

/-- Model of encode in storage.ts: key.map(k => k.replaceAll(SEPERATOR, "")). -/
def encode (key : List Seg) : List Seg :=
  key.map (fun s => s.filter (fun c => c != SEPERATOR))

/-- Model of String.prototype.startsWith, used by MemoryStorage.scan
on flat keys: keyStartsWith k p is k.startsWith(p). -/
def keyStartsWith : Key → Key → Bool
  | _, [] => true
  | [], _ :: _ => false
  | c :: ks, p :: ps => c == p && keyStartsWith ks ps

/-- Three-way lexicographic comparison of character lists.  This models the
key.localeCompare(other) call in MemoryStorage.search (negative, zero,
positive result becomes lt, eq, gt). -/
def lexCompare : Key → Key → Ordering
  | [], [] => .eq
  | [], _ :: _ => .lt
  | _ :: _, [] => .gt
  | a :: as, b :: bs =>
    if a < b then .lt else if b < a then .gt else lexCompare as bs

/-- Strict key order induced by lexCompare. -/
def klt (a b : Key) : Prop := lexCompare a b = .lt

instance (a b : Key) : Decidable (klt a b) := by
  unfold klt; infer_instance

theorem lexCompare_eq_iff : ∀ a b : Key, lexCompare a b = .eq ↔ a = b := by
  intro a
  induction a with
  | nil => intro b; cases b <;> simp [lexCompare]
  | cons x xs ih =>
    intro b
    cases b with
    | nil => simp [lexCompare]
    | cons y ys =>
      simp only [lexCompare]
      rcases lt_trichotomy x y with h | h | h
      · rw [if_pos h]; simp [ne_of_lt h]
      · subst h
        rw [if_neg (lt_irrefl x), if_neg (lt_irrefl x)]
        simp [ih ys]
      · rw [if_neg (lt_asymm h), if_pos h]
        simp [(ne_of_lt h).symm]

theorem lexCompare_self (a : Key) : lexCompare a a = .eq :=
  (lexCompare_eq_iff a a).mpr rfl

theorem lexCompare_gt_iff : ∀ a b : Key, lexCompare a b = .gt ↔ klt b a := by
  intro a
  induction a with
  | nil =>
    intro b; cases b <;> simp [lexCompare, klt]
  | cons x xs ih =>
    intro b
    cases b with
    | nil => simp [lexCompare, klt]
    | cons y ys =>
      simp only [lexCompare, klt]
      rcases lt_trichotomy x y with h | h | h
      · rw [if_pos h, if_neg (lt_asymm h), if_pos h]
        simp
      · subst h
        rw [if_neg (lt_irrefl x), if_neg (lt_irrefl x),
          if_neg (lt_irrefl x), if_neg (lt_irrefl x)]
        exact ih ys
      · rw [if_neg (lt_asymm h), if_pos h, if_pos h]
        simp

theorem klt_trans : ∀ {a b c : Key}, klt a b → klt b c → klt a c := by
  unfold klt
  intro a
  induction a with
  | nil =>
    intro b c hab hbc
    cases b with
    | nil => simp [lexCompare] at hab
    | cons y ys =>
      cases c with
      | nil => simp [lexCompare] at hbc
      | cons z zs => simp [lexCompare]
  | cons x xs ih =>
    intro b c hab hbc
    cases b with
    | nil => simp [lexCompare] at hab
    | cons y ys =>
      cases c with
      | nil => simp [lexCompare] at hbc
      | cons z zs =>
        simp only [lexCompare] at hab hbc ⊢
        rcases lt_trichotomy x y with h1 | h1 | h1
        · rcases lt_trichotomy y z with h2 | h2 | h2
          · rw [if_pos (lt_trans h1 h2)]
          · subst h2; rw [if_pos h1]
          · rw [if_pos h2, if_neg (lt_asymm h2)] at hbc
            simp at hbc
        · subst h1
          rcases lt_trichotomy x z with h2 | h2 | h2
          · rw [if_pos h2]
          · subst h2
            rw [if_neg (lt_irrefl x), if_neg (lt_irrefl x)] at hab hbc ⊢
            exact ih hab hbc
          · rw [if_neg (lt_asymm h2), if_pos h2] at hbc
            simp at hbc
        · rw [if_neg (lt_asymm h1), if_pos h1] at hab
          simp at hab

theorem klt_irrefl (a : Key) : ¬ klt a a := by
  unfold klt
  rw [lexCompare_self]
  simp

theorem klt_ne {a b : Key} (h : klt a b) : a ≠ b := by
  intro he
  subst he
  exact klt_irrefl a h

theorem klt_trichotomy (a b : Key) : a = b ∨ klt a b ∨ klt b a := by
  rcases h : lexCompare a b with hc | hc | hc
  · right; left; exact h
  · left; exact (lexCompare_eq_iff a b).mp h
  · right; right; exact (lexCompare_gt_iff a b).mp h

/-- Entry stored by MemoryStorage: a value plus an optional absolute expiry
timestamp in milliseconds (the number produced by Date.prototype.getTime). -/
structure StoreEntry (V : Type) where
  value : V
  expiry : Option Nat
deriving DecidableEq, Repr

/-- Backing array of MemoryStorage: the ordered list of (flat key, entry) pairs. -/
abbrev Store (V : Type) : Type := List (Key × StoreEntry V)

/-- Flat keys of a store, store.map of the first component. -/
def storeKeys {V : Type} (st : Store V) : List Key := st.map Prod.fst

/-- Model of the test (entry.expiry && Date.now() >= entry.expiry) from
MemoryStorage.get and scan.  JavaScript truthiness makes a stored expiry of 0
falsy, so such an entry never counts as expired. -/
def entryExpired (e : Option Nat) (now : Nat) : Bool :=
  match e with
  | none => false
  | some x => x != 0 && decide (x ≤ now)

/-- Result object of MemoryStorage.search: found flag plus match-or-insertion index. -/
structure SearchResult where
  found : Bool
  index : Nat
deriving DecidableEq, Repr

/-- Loop body of MemoryStorage.search.  left and right are the JavaScript
index variables (right starts at store.length - 1, which can be -1, hence
Int); mid is Math.floor((left + right) / 2) and the comparison is the
modelled localeCompare of the probe key against store[mid][0].  The loop is
driven by an explicit iteration bound: every iteration shrinks the interval
[left, right] by at least one, so any bound exceeding the interval size
(search below passes keys.length + 1) makes the bound-exhausted branch
unreachable.  Out-of-range getD accesses likewise cannot occur on reachable
arguments; getD merely totalizes the function. -/
def searchGo (keys : List Key) (k : Key) : Nat → Int → Int → SearchResult
  | 0, left, _ => ⟨false, left.toNat⟩
  | fuel + 1, left, right =>
    if left ≤ right then
      match lexCompare k (keys.getD ((left + right) / 2).toNat []) with
      | .eq => ⟨true, ((left + right) / 2).toNat⟩
      | .lt => searchGo keys k fuel left ((left + right) / 2 - 1)
      | .gt => searchGo keys k fuel ((left + right) / 2 + 1) right
    else ⟨false, left.toNat⟩

/-- Model of MemoryStorage.search(key): binary search over the flat keys. -/
def search (keys : List Key) (k : Key) : SearchResult :=
  searchGo keys k (keys.length + 1) 0 ((keys.length : Int) - 1)

/-- Sortedness invariant of the backing array: flat keys strictly ascending
in the order used by search (hence each flat key occurs at most once). -/
def SortedKeys (keys : List Key) : Prop := List.Pairwise klt keys

/-- Store-level sortedness invariant. -/
def StoreSorted {V : Type} (st : Store V) : Prop := SortedKeys (storeKeys st)

theorem SortedKeys.getD_lt {keys : List Key} (hs : SortedKeys keys) {i j : Nat}
    (hij : i < j) (hj : j < keys.length) :
    klt (keys.getD i []) (keys.getD j []) := by
  have hi : i < keys.length := lt_trans hij hj
  rw [List.getD_eq_getElem _ _ hi, List.getD_eq_getElem _ _ hj]
  exact (List.pairwise_iff_getElem.mp hs) i j hi hj hij

/-- Postcondition of search: on found, the index holds the probe key; on not
found, the index is the insertion point that keeps the keys sorted (all keys
before it strictly below the probe, all keys from it on strictly above). -/
def SearchOk (keys : List Key) (k : Key) (r : SearchResult) : Prop :=
  if r.found then r.index < keys.length ∧ keys.getD r.index [] = k
  else r.index ≤ keys.length ∧
    (∀ i : Nat, i < r.index → klt (keys.getD i []) k) ∧
    (∀ i : Nat, r.index ≤ i → i < keys.length → klt k (keys.getD i []))

theorem searchGo_spec (keys : List Key) (k : Key) (hs : SortedKeys keys) :
    ∀ (fuel : Nat) (left right : Int),
      (right + 1 - left).toNat < fuel →
      0 ≤ left → left ≤ (keys.length : Int) → right < (keys.length : Int) →
      (∀ i : Nat, (i : Int) < left → klt (keys.getD i []) k) →
      (∀ i : Nat, right < (i : Int) → i < keys.length → klt k (keys.getD i [])) →
      SearchOk keys k (searchGo keys k fuel left right) := by
  intro fuel
  induction fuel with
  | zero => intro left right hfuel; omega
  | succ fuel ih =>
    intro left right hfuel h0 hlen hrlen hlow hhigh
    rw [searchGo]
    by_cases hlr : left ≤ right
    · rw [if_pos hlr]
      have hmid1 : left ≤ (left + right) / 2 := by omega
      have hmid2 : (left + right) / 2 ≤ right := by omega
      have hmidlt : ((left + right) / 2).toNat < keys.length := by omega
      cases hc : lexCompare k (keys.getD ((left + right) / 2).toNat []) with
      | lt =>
        -- comparison < 0 : continue in the left half
        have hklt : klt k (keys.getD ((left + right) / 2).toNat []) := hc
        refine ih left ((left + right) / 2 - 1) (by omega) h0 hlen (by omega) hlow ?_
        intro i hi hilen
        rcases Nat.lt_or_ge i ((left + right) / 2).toNat with hlt | hge
        · omega
        · rcases Nat.eq_or_lt_of_le hge with heq | hlt
          · rw [← heq]; exact hklt
          · exact klt_trans hklt (hs.getD_lt hlt hilen)
      | eq =>
        -- comparison == 0 : found at mid
        exact ⟨hmidlt, ((lexCompare_eq_iff _ _).mp hc).symm⟩
      | gt =>
        -- comparison > 0 : continue in the right half
        have hklt : klt (keys.getD ((left + right) / 2).toNat []) k :=
          (lexCompare_gt_iff _ _).mp hc
        refine ih ((left + right) / 2 + 1) right (by omega) (by omega) (by omega) hrlen ?_ hhigh
        intro i hi
        rcases Nat.lt_or_ge i ((left + right) / 2).toNat with hlt | hge
        · exact klt_trans (hs.getD_lt hlt hmidlt) hklt
        · have heq : i = ((left + right) / 2).toNat := by omega
          rw [heq]; exact hklt
    · rw [if_neg hlr]
      show left.toNat ≤ keys.length ∧
        (∀ i : Nat, i < left.toNat → klt (keys.getD i []) k) ∧
        (∀ i : Nat, left.toNat ≤ i → i < keys.length → klt k (keys.getD i []))
      refine ⟨by omega, ?_, ?_⟩
      · intro i hi
        exact hlow i (by omega)
      · intro i hi hilen
        exact hhigh i (by omega) hilen

theorem search_spec (keys : List Key) (k : Key) (hs : SortedKeys keys) :
    SearchOk keys k (search keys k) := by
  refine searchGo_spec keys k hs (keys.length + 1) 0 ((keys.length : Int) - 1)
    (by omega) (by omega) (by omega) (by omega) ?_ ?_
  · intro i hi; omega
  · intro i hi hilen; omega

theorem search_found_spec (keys : List Key) (k : Key) (hs : SortedKeys keys)
    (h : (search keys k).found = true) :
    (search keys k).index < keys.length ∧ keys.getD (search keys k).index [] = k := by
  have hsp := search_spec keys k hs
  unfold SearchOk at hsp
  rw [h] at hsp
  simpa using hsp

theorem search_not_found_spec (keys : List Key) (k : Key) (hs : SortedKeys keys)
    (h : (search keys k).found = false) :
    (search keys k).index ≤ keys.length ∧
      (∀ i : Nat, i < (search keys k).index → klt (keys.getD i []) k) ∧
      (∀ i : Nat, (search keys k).index ≤ i → i < keys.length →
        klt k (keys.getD i [])) := by
  have hsp := search_spec keys k hs
  unfold SearchOk at hsp
  rw [h] at hsp
  simpa using hsp

theorem search_not_found_not_mem (keys : List Key) (k : Key) (hs : SortedKeys keys)
    (h : (search keys k).found = false) : k ∉ keys := by
  intro hmem
  obtain ⟨i, hi, hik⟩ := List.mem_iff_getElem.mp hmem
  obtain ⟨-, hlow, hhigh⟩ := search_not_found_spec keys k hs h
  have hgd : keys.getD i [] = k := by rw [List.getD_eq_getElem _ _ hi, hik]
  rcases Nat.lt_or_ge i (search keys k).index with hlt | hge
  · exact klt_irrefl k (hgd ▸ hlow i hlt)
  · exact klt_irrefl k (hgd ▸ hhigh i hge hi)

theorem search_found_of_mem (keys : List Key) (k : Key) (hs : SortedKeys keys)
    (h : k ∈ keys) : (search keys k).found = true := by
  by_contra hne
  exact search_not_found_not_mem keys k hs (by simpa using hne) h

/-- Model of store.splice(i, 0, entry): insert entry at index i. -/
def spliceIn {V : Type} (st : Store V) (i : Nat) (e : Key × StoreEntry V) : Store V :=
  st.take i ++ e :: st.drop i

/-- Model of store.splice(i, 1): delete the entry at index i. -/
def spliceOut {V : Type} (st : Store V) (i : Nat) : Store V :=
  st.take i ++ st.drop (i + 1)

/-- Model of the assignment store[i] = entry. -/
def replaceAt {V : Type} (st : Store V) (i : Nat) (e : Key × StoreEntry V) : Store V :=
  st.set i e

/-- Model of MemoryStorage.get(key).  Returns the looked-up value (undefined
becomes none), the store after the call (lazy expiry deletes the entry), and
whether save() ran.  The out-of-range arm of the inner match is unreachable:
search reports found only at a valid index. -/
def memGet {V : Type} (st : Store V) (now : Nat) (key : List Seg) :
    Option V × Store V × Bool :=
  let m := search (storeKeys st) (joinKey key)
  if m.found then
    match st[m.index]? with
    | none => (none, st, false)
    | some e =>
      if entryExpired e.2.expiry now then (none, spliceOut st m.index, true)
      else (some e.2.value, st, false)
  else (none, st, false)

/-- Model of MemoryStorage.set(key, value, expiry) for an already evaluated
expiry timestamp: the value of (expiry ? expiry.getTime() : expiry) when that
expression evaluates without a TypeError. -/
def memSet {V : Type} (st : Store V) (key : List Seg) (value : V)
    (expiry : Option Nat) : Store V :=
  let joined := joinKey key
  let m := search (storeKeys st) joined
  let entry := (joined, StoreEntry.mk value expiry)
  if !m.found then spliceIn st m.index entry else replaceAt st m.index entry

/-- Model of MemoryStorage.remove(key): delete when found, no-op otherwise. -/
def memRemove {V : Type} (st : Store V) (key : List Seg) : Store V :=
  let m := search (storeKeys st) (joinKey key)
  if m.found then spliceOut st m.index else st

/-- Model of MemoryStorage.scan(prefix) when the consumer does not mutate the
store between yields: the generator walks the backing array in order, skips
entries whose flat key does not start with joinKey(prefix) or that are
expired, and yields [splitKey(key), value].  now is Date.now() sampled once
when the generator body starts. -/
def memScan {V : Type} (st : Store V) (now : Nat) (pfx : List Seg) :
    List (List Seg × V) :=
  (st.filter (fun e => keyStartsWith e.1 (joinKey pfx) && !entryExpired e.2.expiry now)).map
    (fun e => (splitKey e.1, e.2.value))

/-- JavaScript value passed as the expiry argument of MemoryStorage.set.  The
KVStorageAdapter signature declares an optional Date, but createKvStore's
setAuthorizationCode and setRefreshToken pass the raw ttl number from the
StorageAdapter interface. -/
inductive JsExpiry where
  | undef : JsExpiry
  | date (ms : Nat) : JsExpiry
  | num (n : Nat) : JsExpiry
deriving DecidableEq, Repr

/-- Message of the TypeError raised by evaluating expiry.getTime() when
expiry is a number. -/
def getTimeTypeError : String := "TypeError: expiry.getTime is not a function"

/-- Evaluation of the JavaScript expression (expiry ? expiry.getTime() : expiry)
in MemoryStorage.set.  A Date object is always truthy and getTime() yields its
timestamp; undefined is falsy and stored as-is; the number 0 is falsy and
stored as-is; a nonzero number is truthy, and numbers have no getTime method,
so the call throws a TypeError. -/
def evalExpiry : JsExpiry → Except String (Option Nat)
  | .undef => .ok none
  | .date ms => .ok (some ms)
  | .num 0 => .ok (some 0)
  | .num (_ + 1) => .error getTimeTypeError

/-- Model of MemoryStorage.set as called with a dynamically typed expiry.
The TypeError is thrown while building the entry, before any mutation, so an
error leaves the store unchanged in the caller. -/
def memSetJs {V : Type} (st : Store V) (key : List Seg) (value : V)
    (expiry : JsExpiry) : Except String (Store V) :=
  match evalExpiry expiry with
  | .ok ms => .ok (memSet st key value ms)
  | .error e => .error e

/-- First segment of authorization-code keys in createKvStore. -/
def oauthCodeNS : Seg := "oauth:code".toList

/-- First segment of refresh-token keys in createKvStore. -/
def oauthRefreshNS : Seg := "oauth:refresh".toList

/-- Model of createKvStore(adapter).getOauthCode(code). -/
def getOauthCode {V : Type} (st : Store V) (now : Nat) (code : Seg) :
    Option V × Store V × Bool :=
  memGet st now (encode [oauthCodeNS, code])

/-- Model of createKvStore(adapter).getRefreshToken(subject, refreshToken). -/
def getRefreshToken {V : Type} (st : Store V) (now : Nat) (subject token : Seg) :
    Option V × Store V × Bool :=
  memGet st now (encode [oauthRefreshNS, subject, token])

/-- Model of createKvStore(adapter).setAuthorizationCode(code, properties, ttl):
the ttl number is passed through as the dynamically typed expiry argument. -/
def setAuthorizationCode {V : Type} (st : Store V) (code : Seg) (properties : V)
    (ttl : Nat) : Except String (Store V) :=
  memSetJs st (encode [oauthCodeNS, code]) properties (.num ttl)

/-- Model of createKvStore(adapter).setRefreshToken(subject, refreshToken,
properties, ttl): the ttl number is passed through as the expiry argument. -/
def setRefreshToken {V : Type} (st : Store V) (subject token : Seg) (properties : V)
    (ttl : Nat) : Except String (Store V) :=
  memSetJs st (encode [oauthRefreshNS, subject, token]) properties (.num ttl)

/-- Model of createKvStore(adapter).invalidateOauthCode(code). -/
def invalidateOauthCode {V : Type} (st : Store V) (code : Seg) : Store V :=
  memRemove st (encode [oauthCodeNS, code])

/-- Combined model of invalidateKeys consuming scan.  The async generator in
MemoryStorage.scan iterates the live backing array by index (the standard
JavaScript array iterator), while the consumer in
createKvStore.invalidateKeys removes each yielded key between yields; a
splice shifts later entries one position down while the iterator still
advances.  Driven by an explicit iteration bound: i grows by one per
iteration and the store never grows, so any bound exceeding the initial
store length (invalidateKeys passes length + 1) makes the bound-exhausted
branch unreachable.  Returns the list of yielded keys and the final store. -/
def scanRemoveGo {V : Type} : Nat → Store V → Nat → Key → Nat →
    List (List Seg) × Store V
  | 0, st, _, _, _ => ([], st)
  | fuel + 1, st, now, pfxStr, i =>
    if h : i < st.length then
      let e := st.get ⟨i, h⟩
      if keyStartsWith e.1 pfxStr && !entryExpired e.2.expiry now then
        let r := scanRemoveGo fuel (memRemove st (splitKey e.1)) now pfxStr (i + 1)
        (splitKey e.1 :: r.1, r.2)
      else scanRemoveGo fuel st now pfxStr (i + 1)
    else ([], st)

/-- Model of createKvStore(adapter).invalidateKeys(subject): scan the prefix
[oauthRefreshNS, subject] (joined without encode) over the live store and
remove every yielded key. -/
def invalidateKeys {V : Type} (st : Store V) (now : Nat) (subject : Seg) :
    List (List Seg) × Store V :=
  scanRemoveGo (st.length + 1) st now (joinKey [oauthRefreshNS, subject]) 0

theorem joinKey_splitKey (k : Key) : joinKey (splitKey k) = k := by
  unfold joinKey splitKey
  exact List.intercalate_splitOn k SEPERATOR

theorem splitKey_joinKey (xs : List Seg) (hne : xs ≠ [])
    (hsep : ∀ s ∈ xs, SEPERATOR ∉ s) : splitKey (joinKey xs) = xs := by
  unfold joinKey splitKey
  exact List.splitOn_intercalate xs SEPERATOR hsep hne

theorem splitKey_injective {a b : Key} (h : splitKey a = splitKey b) : a = b := by
  have ha := joinKey_splitKey a
  have hb := joinKey_splitKey b
  rw [← ha, ← hb, h]

theorem storeKeys_length {V : Type} (st : Store V) :
    (storeKeys st).length = st.length := by
  simp [storeKeys]

theorem storeKeys_getD {V : Type} (st : Store V) {i : Nat} (h : i < st.length) :
    (storeKeys st).getD i [] = (st[i]).1 := by
  rw [List.getD_eq_getElem _ _ (by simpa [storeKeys] using h)]
  simp [storeKeys]

theorem spliceOut_sublist {V : Type} (st : Store V) (i : Nat) :
    List.Sublist (spliceOut st i) st := by
  unfold spliceOut
  have h1 : List.Sublist (st.drop (i + 1)) (st.drop i) := by
    rw [← List.drop_drop 1 i st]
    exact List.drop_sublist 1 (st.drop i)
  have h2 := h1.append_left (st.take i)
  rw [List.take_append_drop i st] at h2
  exact h2

theorem spliceOut_sorted {V : Type} {st : Store V} (hs : StoreSorted st) (i : Nat) :
    StoreSorted (spliceOut st i) := by
  unfold StoreSorted SortedKeys storeKeys
  exact hs.sublist ((spliceOut_sublist st i).map Prod.fst)

theorem memRemove_sorted {V : Type} {st : Store V} (hs : StoreSorted st)
    (key : List Seg) : StoreSorted (memRemove st key) := by
  simp only [memRemove]
  split
  · exact spliceOut_sorted hs _
  · exact hs

theorem memRemove_length_le {V : Type} (st : Store V) (key : List Seg) :
    (memRemove st key).length ≤ st.length := by
  simp only [memRemove]
  split
  · exact (spliceOut_sublist st _).length_le
  · exact le_refl _

theorem memGet_sorted {V : Type} {st : Store V} (hs : StoreSorted st)
    (now : Nat) (key : List Seg) : StoreSorted (memGet st now key).2.1 := by
  simp only [memGet]
  split
  · split
    · exact hs
    · split
      · exact spliceOut_sorted hs _
      · exact hs
  · exact hs

theorem spliceIn_sorted {V : Type} {st : Store V} (hs : StoreSorted st)
    {k : Key} {e : StoreEntry V} {i : Nat} (hi : i ≤ st.length)
    (hlow : ∀ j : Nat, j < i → klt ((storeKeys st).getD j []) k)
    (hhigh : ∀ j : Nat, i ≤ j → j < st.length → klt k ((storeKeys st).getD j [])) :
    StoreSorted (spliceIn st i (k, e)) := by
  unfold StoreSorted SortedKeys
  have hkeys : storeKeys (spliceIn st i (k, e)) =
      (storeKeys st).take i ++ k :: (storeKeys st).drop i := by
    unfold spliceIn storeKeys
    simp
  rw [hkeys]
  have hlen : (storeKeys st).length = st.length := storeKeys_length st
  rw [List.pairwise_append]
  refine ⟨hs.sublist (List.take_sublist i (storeKeys st)), ?_, ?_⟩
  · rw [List.pairwise_cons]
    refine ⟨?_, hs.sublist (List.drop_sublist i (storeKeys st))⟩
    intro y hy
    obtain ⟨j, hj, hje⟩ := List.mem_iff_getElem.mp hy
    have hjlen : i + j < st.length := by
      have := hj
      simp only [List.length_drop] at this
      omega
    have : ((storeKeys st).drop i)[j] = (storeKeys st).getD (i + j) [] := by
      rw [List.getD_eq_getElem _ _ (by omega : i + j < (storeKeys st).length)]
      exact List.getElem_drop (storeKeys st)
    rw [← hje, this]
    exact hhigh (i + j) (by omega) hjlen
  · intro x hx y hy
    obtain ⟨j, hj, hje⟩ := List.mem_iff_getElem.mp hx
    have hji : j < i := by
      have := hj
      simp only [List.length_take] at this
      omega
    have hjlen : j < st.length := by
      have := hj
      simp only [List.length_take] at this
      omega
    have hxk : klt x k := by
      have hgd : ((storeKeys st).take i)[j] = (storeKeys st).getD j [] := by
        rw [List.getD_eq_getElem _ _ (by omega : j < (storeKeys st).length)]
        exact List.getElem_take (storeKeys st)
      rw [← hje, hgd]
      exact hlow j hji
    rcases List.mem_cons.mp hy with hyk | hyd
    · rw [hyk]; exact hxk
    · obtain ⟨m, hm, hme⟩ := List.mem_iff_getElem.mp hyd
      have hmlen : i + m < st.length := by
        have := hm
        simp only [List.length_drop] at this
        omega
      have : ((storeKeys st).drop i)[m] = (storeKeys st).getD (i + m) [] := by
        rw [List.getD_eq_getElem _ _ (by omega : i + m < (storeKeys st).length)]
        exact List.getElem_drop (storeKeys st)
      rw [← hme, this]
      exact klt_trans hxk (hhigh (i + m) (by omega) hmlen)

theorem memSet_sorted {V : Type} {st : Store V} (hs : StoreSorted st)
    (key : List Seg) (v : V) (e : Option Nat) :
    StoreSorted (memSet st key v e) := by
  have hlen : (storeKeys st).length = st.length := storeKeys_length st
  cases hf : (search (storeKeys st) (joinKey key)).found with
  | false =>
    -- not found : insertion at the reported insertion point
    obtain ⟨hle, hlow, hhigh⟩ :=
      search_not_found_spec (storeKeys st) (joinKey key) hs hf
    simp only [memSet, hf, Bool.not_false, if_true]
    exact spliceIn_sorted hs (by omega) hlow (fun j h1 h2 => hhigh j h1 (by omega))
  | true =>
    -- found : in-place replacement with the same flat key
    obtain ⟨hidx, hkey⟩ := search_found_spec (storeKeys st) (joinKey key) hs hf
    simp only [memSet, hf, Bool.not_true, Bool.false_eq_true, if_false]
    unfold StoreSorted
    have hkeys : storeKeys
        (replaceAt st (search (storeKeys st) (joinKey key)).index
          (joinKey key, StoreEntry.mk v e)) = storeKeys st := by
      unfold replaceAt storeKeys
      rw [List.map_set]
      apply List.ext_getElem (by simp)
      intro j h1 h2
      rw [List.getElem_set]
      split
      · rename_i hij
        subst hij
        rw [← List.getD_eq_getElem (st.map Prod.fst) [] h2]
        exact hkey.symm
      · rfl
    rw [hkeys]
    exact hs

theorem StoreSorted.nodupKeys {V : Type} {st : Store V} (hs : StoreSorted st) :
    (storeKeys st).Nodup :=
  hs.imp (fun h => klt_ne h)

theorem sorted_entry_at {V : Type} {st : Store V} (hs : StoreSorted st) {k : Key}
    {e : StoreEntry V} (hmem : (k, e) ∈ st) {i : Nat} (hi : i < st.length)
    (hk : (storeKeys st).getD i [] = k) : st[i] = (k, e) := by
  obtain ⟨j, hj, hje⟩ := List.mem_iff_getElem.mp hmem
  have hkj : (storeKeys st).getD j [] = k := by
    rw [storeKeys_getD st hj, hje]
  have hlen : (storeKeys st).length = st.length := storeKeys_length st
  rcases lt_trichotomy i j with hlt | heq | hgt
  · have := hs.getD_lt hlt (by omega)
    rw [hk, hkj] at this
    exact absurd this (klt_irrefl k)
  · subst heq; exact hje
  · have := hs.getD_lt hgt (by omega)
    rw [hk, hkj] at this
    exact absurd this (klt_irrefl k)

/-- One mutating operation of the Ordered KV Store as exercised by C4. -/
inductive StoreOp (V : Type) where
  | set (key : List Seg) (value : V) (expiry : JsExpiry) : StoreOp V
  | remove (key : List Seg) : StoreOp V

/-- Application of one operation.  A set whose dynamic expiry evaluation
throws a TypeError leaves the store unchanged: the throw happens while the
entry is built, before the splice. -/
def applyOp {V : Type} (st : Store V) : StoreOp V → Store V
  | .set key v e =>
    match memSetJs st key v e with
    | .ok st2 => st2
    | .error _ => st
  | .remove key => memRemove st key

/-- Left-to-right application of a sequence of operations. -/
def applyOps {V : Type} (st : Store V) (ops : List (StoreOp V)) : Store V :=
  ops.foldl applyOp st

theorem applyOp_sorted {V : Type} {st : Store V} (hs : StoreSorted st)
    (op : StoreOp V) : StoreSorted (applyOp st op) := by
  cases op with
  | set key v e =>
    simp only [applyOp, memSetJs]
    cases he : evalExpiry e with
    | ok ms => exact memSet_sorted hs key v ms
    | error msg => exact hs
  | remove key => exact memRemove_sorted hs key

theorem applyOps_sorted {V : Type} {st : Store V} (hs : StoreSorted st)
    (ops : List (StoreOp V)) : StoreSorted (applyOps st ops) := by
  induction ops generalizing st with
  | nil => exact hs
  | cons op ops ih => exact ih (applyOp_sorted hs op)

theorem empty_sorted {V : Type} : StoreSorted ([] : Store V) := by
  unfold StoreSorted SortedKeys storeKeys
  simp

theorem memSet_mem {V : Type} (st : Store V) (hs : StoreSorted st) (key : List Seg)
    (v : V) (e : Option Nat) :
    (joinKey key, StoreEntry.mk v e) ∈ memSet st key v e := by
  cases hf : (search (storeKeys st) (joinKey key)).found with
  | false =>
    simp only [memSet, hf, Bool.not_false, if_true]
    unfold spliceIn
    exact List.mem_append.mpr (Or.inr (List.mem_cons_self _ _))
  | true =>
    obtain ⟨hidx, hkey⟩ := search_found_spec _ _ hs hf
    have hlen := storeKeys_length st
    simp only [memSet, hf, Bool.not_true, Bool.false_eq_true, if_false]
    unfold replaceAt
    apply List.mem_iff_getElem.mpr
    refine ⟨(search (storeKeys st) (joinKey key)).index, by simp; omega, ?_⟩
    exact List.getElem_set_self _

theorem sorted_key_unique {V : Type} {st : Store V} (hs : StoreSorted st) {k : Key}
    {e1 e2 : StoreEntry V} (h1 : (k, e1) ∈ st) (h2 : (k, e2) ∈ st) : e1 = e2 := by
  obtain ⟨i, hi, hie⟩ := List.mem_iff_getElem.mp h1
  have hki : (storeKeys st).getD i [] = k := by rw [storeKeys_getD st hi, hie]
  have h := sorted_entry_at hs h2 hi hki
  rw [hie] at h
  simpa using h

theorem memGet_memSet_self {V : Type} (st : Store V) (hs : StoreSorted st)
    (key : List Seg) (v : V) (e : Option Nat) (now : Nat)
    (hexp : ∀ x : Nat, e = some x → now < x) :
    (memGet (memSet st key v e) now key).1 = some v := by
  have hs2 : StoreSorted (memSet st key v e) := memSet_sorted hs key v e
  have hmem : (joinKey key, StoreEntry.mk v e) ∈ memSet st key v e :=
    memSet_mem st hs key v e
  have hkmem : joinKey key ∈ storeKeys (memSet st key v e) :=
    List.mem_map.mpr ⟨_, hmem, rfl⟩
  have hf : (search (storeKeys (memSet st key v e)) (joinKey key)).found = true :=
    search_found_of_mem _ _ hs2 hkmem
  obtain ⟨hidx, hkey⟩ := search_found_spec _ _ hs2 hf
  have hlen := storeKeys_length (memSet st key v e)
  have hib : (search (storeKeys (memSet st key v e)) (joinKey key)).index <
      (memSet st key v e).length := by omega
  have hat := sorted_entry_at hs2 hmem hib hkey
  have hsome : (memSet st key v e)[(search (storeKeys (memSet st key v e))
      (joinKey key)).index]? = some (joinKey key, StoreEntry.mk v e) := by
    rw [List.getElem?_eq_getElem hib, hat]
  have hne : entryExpired e now = false := by
    cases e with
    | none => rfl
    | some x =>
      have hx := hexp x rfl
      simp only [entryExpired, Bool.and_eq_false_iff]
      right
      simp
      omega
  simp only [memGet, hf, if_true, hsome, hne]
  simp

theorem memGet_none_of_expired {V : Type} (st : Store V) (hs : StoreSorted st)
    (now : Nat) (key : List Seg)
    (h : ∀ e : StoreEntry V, (joinKey key, e) ∈ st →
      entryExpired e.expiry now = true) :
    (memGet st now key).1 = none := by
  cases hf : (search (storeKeys st) (joinKey key)).found with
  | false => simp [memGet, hf]
  | true =>
    obtain ⟨hidx, hkey⟩ := search_found_spec _ _ hs hf
    have hlen := storeKeys_length st
    have hib : (search (storeKeys st) (joinKey key)).index < st.length := by omega
    have hkeyi : (st[(search (storeKeys st) (joinKey key)).index]).1 =
        joinKey key := by
      rw [← storeKeys_getD st hib]
      exact hkey
    set p := st[(search (storeKeys st) (joinKey key)).index] with hpd
    have hp : p = (joinKey key, p.2) := by
      rw [← hkeyi]
    have hmem : (joinKey key, p.2) ∈ st := by
      rw [← hp, hpd]
      exact List.mem_iff_getElem.mpr ⟨_, hib, rfl⟩
    have hexp := h _ hmem
    have hsome : st[(search (storeKeys st) (joinKey key)).index]? =
        some (joinKey key, p.2) := by
      rw [List.getElem?_eq_getElem hib, ← hpd, hp]
    simp only [memGet, hf, if_true, hsome, hexp]

theorem memGet_expired_removes {V : Type} (st : Store V) (hs : StoreSorted st)
    (now : Nat) {k : Key} {e : StoreEntry V} (hmem : (k, e) ∈ st)
    (hexp : entryExpired e.expiry now = true) :
    st[(search (storeKeys st) k).index]? = some (k, e) ∧
    memGet st now (splitKey k) =
      (none, spliceOut st (search (storeKeys st) k).index, true) := by
  have hkmem : k ∈ storeKeys st := List.mem_map.mpr ⟨_, hmem, rfl⟩
  have hf := search_found_of_mem _ _ hs hkmem
  obtain ⟨hidx, hkey⟩ := search_found_spec _ _ hs hf
  have hlen := storeKeys_length st
  have hib : (search (storeKeys st) k).index < st.length := by omega
  have hat := sorted_entry_at hs hmem hib hkey
  have hsome : st[(search (storeKeys st) k).index]? = some (k, e) := by
    rw [List.getElem?_eq_getElem hib, hat]
  refine ⟨hsome, ?_⟩
  simp only [memGet, joinKey_splitKey, hf, if_true, hsome, hexp]

theorem memScan_mem_iff {V : Type} (st : Store V) (now : Nat) (pfx : List Seg)
    (p : List Seg × V) :
    p ∈ memScan st now pfx ↔
      ∃ k : Key, ∃ e : StoreEntry V, (k, e) ∈ st ∧
        keyStartsWith k (joinKey pfx) = true ∧
        entryExpired e.expiry now = false ∧ p = (splitKey k, e.value) := by
  unfold memScan
  constructor
  · intro hp
    obtain ⟨q, hq, hqe⟩ := List.mem_map.mp hp
    obtain ⟨hqs, hqf⟩ := List.mem_filter.mp hq
    rw [Bool.and_eq_true, Bool.not_eq_true'] at hqf
    exact ⟨q.1, q.2, hqs, hqf.1, hqf.2, hqe.symm⟩
  · rintro ⟨k, e, hmem, hpf, hne, hpe⟩
    apply List.mem_map.mpr
    refine ⟨(k, e), List.mem_filter.mpr ⟨hmem, ?_⟩, hpe.symm⟩
    rw [Bool.and_eq_true, Bool.not_eq_true']
    exact ⟨hpf, hne⟩

theorem memScan_not_mem_expired {V : Type} (st : Store V) (hs : StoreSorted st)
    (now : Nat) {k : Key} {e : StoreEntry V} (hmem : (k, e) ∈ st)
    (hexp : entryExpired e.expiry now = true) (pfx : List Seg) :
    ∀ p ∈ memScan st now pfx, p.1 ≠ splitKey k := by
  intro p hp hpk
  obtain ⟨k2, e2, hmem2, hpf2, hne2, hpe2⟩ := (memScan_mem_iff st now pfx p).mp hp
  have hk2 : k2 = k := by
    apply splitKey_injective
    rw [← hpk, hpe2]
  subst hk2
  have : e2 = e := sorted_key_unique hs hmem2 hmem
  subst this
  rw [hexp] at hne2
  cases hne2

/-- Opaque token string: access tokens and refresh tokens are modelled as
natural numbers. -/
abbrev Tok : Type := Nat

/-- Environment of createClient(...).refresh: decodeExp a is the value of
(decodeJwt(a).exp || 0) in seconds (jose's decodeJwt returns a truthy payload
object whenever it returns, so the falsy-decoded branch of refresh is dead
code and not modelled); endpointOk r is the token endpoint's answer to the
grant_type=refresh_token POST, some (access, refresh) for a 2xx response with
that JSON body and none for a non-success response. -/
structure RefreshEnv where
  decodeExp : Tok → Nat
  endpointOk : Tok → Option (Tok × Tok)

/-- Outcome of createClient(...).refresh. -/
inductive RefreshResult where
  | noRefresh : RefreshResult
  | tokens (access refresh : Tok) : RefreshResult
  | invalidRefreshToken : RefreshResult
deriving DecidableEq, Repr

/-- Result of the POST to the token endpoint inside refresh: tokens on a 2xx
response, InvalidRefreshTokenError otherwise. -/
def refreshPost (env : RefreshEnv) (rtok : Tok) : RefreshResult :=
  match env.endpointOk rtok with
  | some (a, r) => .tokens a r
  | none => .invalidRefreshToken

/-- Model of createClient(...).refresh(refresh, opts).  nowMs is Date.now()
in milliseconds; the guard (decoded.exp || 0) > Date.now() / 1000 + 30 is
written in its exact integer form 1000 * exp > nowMs + 30000.  The second
component counts network requests made by the call. -/
def refresh (env : RefreshEnv) (nowMs : Nat) (rtok : Tok) (access : Option Tok) :
    RefreshResult × Nat :=
  match access with
  | some a =>
    if 1000 * env.decodeExp a > nowMs + 30000 then (.noRefresh, 0)
    else (refreshPost env rtok, 1)
  | none => (refreshPost env rtok, 1)

/-- Outcome of the jwtVerify call inside verify: a decoded payload, a
JWTExpired failure, or any other failure. -/
inductive VerifyOutcome (P : Type) where
  | ok (payload : P) : VerifyOutcome P
  | expired : VerifyOutcome P
  | invalid : VerifyOutcome P

/-- Environment of createClient(...).verify: verifyTok is the opaque
jwtVerify capability, accept p models (!validated.issues && payload.mode ===
"access"), and endpointOk is the token endpoint used by the nested
this.refresh call (which always POSTs, as verify passes no access option). -/
structure VerifyEnv (P : Type) where
  verifyTok : Tok → VerifyOutcome P
  accept : P → Bool
  endpointOk : Tok → Option (Tok × Tok)

/-- Result of createClient(...).verify. -/
inductive VerifyResult (P : Type) where
  | subject (payload : P) (tokens : Option (Tok × Tok)) : VerifyResult P
  | invalidSubject : VerifyResult P
  | invalidAccessToken : VerifyResult P
  | invalidRefreshToken : VerifyResult P
deriving DecidableEq, Repr

/-- Overwrite of verified.tokens = refreshed.tokens on a successful nested
verify; errors propagate unchanged. -/
def withTokens {P : Type} (r : VerifyResult P) (t : Tok × Tok) : VerifyResult P :=
  match r with
  | .subject p _ => .subject p (some t)
  | other => other

/-- Model of createClient(...).verify(subjects, token, options), with an
explicit recursion budget: the source recursion carries no depth cap, so the
model is given gas recursion levels and a first component of none means the
call has not returned within that many levels.  The second component counts
refresh attempts (POSTs to the token endpoint).  refreshOpt is
options.refresh. -/
def verifyGas {P : Type} (env : VerifyEnv P) :
    Nat → Tok → Option Tok → Option (VerifyResult P) × Nat
  | 0, _, _ => (none, 0)
  | gas + 1, token, refreshOpt =>
    match env.verifyTok token with
    | .ok p =>
      if env.accept p then (some (.subject p none), 0)
      else (some .invalidSubject, 0)
    | .invalid => (some .invalidAccessToken, 0)
    | .expired =>
      match refreshOpt with
      | none => (some .invalidAccessToken, 0)
      | some r =>
        match env.endpointOk r with
        | none => (some .invalidRefreshToken, 1)
        | some (a2, r2) =>
          match verifyGas env gas a2 (some r2) with
          | (none, n) => (none, n + 1)
          | (some res, n) => (some (withTokens res (a2, r2)), n + 1)

/-- Misbehaving issuer of C3: every access token verifies as expired and the
token endpoint always answers 2xx with a fresh (but again expired) pair. -/
def expiredIssuerEnv : VerifyEnv Unit where
  verifyTok := fun _ => .expired
  accept := fun _ => true
  endpointOk := fun t => some (t + 1, t + 1)

example : joinKey [['a'], ['b']] = ['a', SEPERATOR, 'b'] := by decide
example : splitKey ['a', SEPERATOR, 'b'] = [['a'], ['b']] := by decide
example : splitKey (joinKey []) = [[]] := by decide
example : keyStartsWith ['a', 'b'] ['a'] = true := by decide
example : klt ['a'] ['b'] := by decide

/-- Store built by three setRefreshToken calls with ttl 0 (the only ttl the
dynamic expiry evaluation accepts without a TypeError): tokens t1 and t2 for
subject a, then token tb for subject b. -/
def refreshStoreA : Store Nat :=
  (setRefreshToken ([] : Store Nat) "a".toList "t1".toList 101 0).toOption.getD []

def refreshStoreB : Store Nat :=
  (setRefreshToken refreshStoreA "a".toList "t2".toList 102 0).toOption.getD []

def refreshStoreAB : Store Nat :=
  (setRefreshToken refreshStoreB "b".toList "tb".toList 103 0).toOption.getD []

/-- Expired singleton store used by witnesses: key k with expiry 3. -/
def expiredStore : Store Nat := [(['k'], StoreEntry.mk 5 (some 3))]

/-- Concrete refresh environment used by the C9 witness. -/
def refreshEnvExample : RefreshEnv where
  decodeExp := fun t => t
  endpointOk := fun t => some (t + 1, t + 2)

/-- C1: the claim says setAuthorizationCode(code, properties, ttl) (and
setRefreshToken) stores the entry with expiry now + ttl and completes
without error.  The code disagrees: both pass the raw ttl number as the
expiry argument of MemoryStorage.set, whose expression
(expiry ? expiry.getTime() : expiry) calls .getTime() on a truthy number and
therefore throws a TypeError for every nonzero ttl, storing nothing.  This
theorem evaluates the code at the failing inputs: for every store and every
ttl = n + 1 both operations reject with the TypeError instead of storing. -/
theorem C1_set_ttl_raises_typeError (V : Type) (st : Store V) (code : Seg)
    (props : V) (n : Nat) :
    setAuthorizationCode st code props (n + 1) = .error getTimeTypeError ∧
    ∀ subject token : Seg,
      setRefreshToken st subject token props (n + 1) = .error getTimeTypeError :=
  ⟨rfl, fun _ _ => rfl⟩

/-- C2: the claim says invalidateKeys(s) removes every refresh token of
subject s and leaves other subjects intact.  The code disagrees: scan's
async generator iterates the live backing array while invalidateKeys
removes the entry just yielded, so the following matching entry shifts into
the consumed position and is skipped.  Evaluated at the failing input (two
tokens t1, t2 for subject a, one token tb for subject b, all set with
ttl 0): only t1 is yielded and removed, and getRefreshToken(a, t2) still
returns its value after invalidateKeys(a), contradicting the claim. -/
theorem C2_invalidateKeys_skips_second_token :
    (getRefreshToken refreshStoreAB 5 "a".toList "t2".toList).1 = some 102 ∧
    (invalidateKeys refreshStoreAB 5 "a".toList).1 =
      [["oauth:refresh".toList, "a".toList, "t1".toList]] ∧
    (getRefreshToken (invalidateKeys refreshStoreAB 5 "a".toList).2 5
      "a".toList "t2".toList).1 = some 102 ∧
    (getRefreshToken (invalidateKeys refreshStoreAB 5 "a".toList).2 5
      "b".toList "tb".toList).1 = some 103 := by
  refine ⟨by decide, by decide, by decide, by decide⟩

/-- C3: the claim says every verify call performs at most one refresh
attempt and terminates after a single refresh-and-retry cycle even against
an issuer whose token endpoint keeps returning already-expired access
tokens.  The code disagrees: the recursive verify call always carries the
fresh refresh token and no depth cap, so against such an issuer
(expiredIssuerEnv) every recursion level performs another refresh attempt;
within any gas levels the model makes exactly gas refresh attempts and
never returns. -/
theorem C3_verify_refreshes_unboundedly :
    ∀ (gas : Nat) (token rtok : Tok),
      verifyGas expiredIssuerEnv gas token (some rtok) = (none, gas) := by
  have henv1 : ∀ t : Tok, expiredIssuerEnv.verifyTok t = .expired := fun _ => rfl
  have henv2 : ∀ t : Tok, expiredIssuerEnv.endpointOk t = some (t + 1, t + 1) :=
    fun _ => rfl
  intro gas
  induction gas with
  | zero => intro t r; rfl
  | succ gas ih =>
    intro t r
    simp only [verifyGas, henv1, henv2, ih]

/-- Self-consistency invariant of the embedding: when the comparison search
uses is the lexicographic lexCompare, every sequence of set and remove
operations from the empty store keeps the flat keys strictly ascending in
that same order, hence unique.  This backs the sortedness hypotheses of the
get/set lemmas above.  The comparison the source actually performs is
String.prototype.localeCompare, whose collation order differs from the byte
order the spec asserts; see the C4 theorem below for that divergence. -/
theorem store_sorted_unique_model (V : Type) (ops : List (StoreOp V)) :
    List.Pairwise klt (storeKeys (applyOps ([] : Store V) ops)) ∧
    (storeKeys (applyOps ([] : Store V) ops)).Nodup :=
  have hs := applyOps_sorted empty_sorted ops
  ⟨hs, hs.nodupKeys⟩

/-- Variant of the search loop with the three-way comparison as a parameter:
the same binary search as searchGo, used to evaluate the store under the
collation model of localeCompare. -/
def searchGoWith (cmp : Key → Key → Ordering) (keys : List Key) (k : Key) :
    Nat → Int → Int → SearchResult
  | 0, left, _ => ⟨false, left.toNat⟩
  | fuel + 1, left, right =>
    if left ≤ right then
      match cmp k (keys.getD ((left + right) / 2).toNat []) with
      | .eq => ⟨true, ((left + right) / 2).toNat⟩
      | .lt => searchGoWith cmp keys k fuel left ((left + right) / 2 - 1)
      | .gt => searchGoWith cmp keys k fuel ((left + right) / 2 + 1) right
    else ⟨false, left.toNat⟩

/-- MemoryStorage.search with the comparison as a parameter. -/
def searchWith (cmp : Key → Key → Ordering) (keys : List Key) (k : Key) :
    SearchResult :=
  searchGoWith cmp keys k (keys.length + 1) 0 ((keys.length : Int) - 1)

/-- MemoryStorage.set with the comparison as a parameter (same splice or
in-place replacement as memSet). -/
def memSetWith {V : Type} (cmp : Key → Key → Ordering) (st : Store V)
    (key : List Seg) (value : V) (expiry : Option Nat) : Store V :=
  let joined := joinKey key
  let m := searchWith cmp (storeKeys st) joined
  let entry := (joined, StoreEntry.mk value expiry)
  if !m.found then spliceIn st m.index entry else replaceAt st m.index entry

/-- Lexicographic comparison of collation weight sequences. -/
def weightCompare : List Nat → List Nat → Ordering
  | [], [] => .eq
  | [], _ :: _ => .lt
  | _ :: _, [] => .gt
  | a :: as, b :: bs =>
    if a < b then .lt else if b < a then .gt else weightCompare as bs

/-- Primary collation weight of a character: letters compare by their
case-folded identity. -/
def collatePrimary (c : Char) : Nat := c.toLower.toNat

/-- Tertiary collation weight: at equal primary weight, lowercase sorts
before uppercase in the root collation. -/
def collateTertiary (c : Char) : Nat := if c.isLower then 0 else 1

/-- Completely ignorable characters (the C0 controls, among them the 0x1f
key separator) are dropped before collation. -/
def collateStrip (k : Key) : Key := k.filter (fun c => decide (0x20 ≤ c.toNat))

/-- Modelled from the documented behavior of String.prototype.localeCompare
(ECMA-402 with the ICU root collation), which memory.ts calls but which is
not code of this repository: drop the completely ignorable characters, then
compare primary weights, breaking primary ties by case with lowercase
first.  This fragment covers the ASCII keys used below and is how Node.js
orders them: "a" sorts before "B", and "a" compares equal to the two-
character string of "a" followed by the 0x1f separator. -/
def localeCompareRoot (a b : Key) : Ordering :=
  match weightCompare ((collateStrip a).map collatePrimary)
      ((collateStrip b).map collatePrimary) with
  | .eq =>
    weightCompare ((collateStrip a).map collateTertiary)
      ((collateStrip b).map collateTertiary)
  | o => o

/-- Store after set(["B"], 1) then set(["a"], 2) when search compares with
the collation model of localeCompare. -/
def collationOrderStore : Store Nat :=
  memSetWith localeCompareRoot
    (memSetWith localeCompareRoot ([] : Store Nat) [['B']] 1 none)
    [['a']] 2 none

/-- Store after set(["a"], 1) then set(["a", ""], 2) under the collation
model: the two distinct flat keys collate equal. -/
def collationCollisionStore : Store Nat :=
  memSetWith localeCompareRoot
    (memSetWith localeCompareRoot ([] : Store Nat) [['a']] 1 none)
    [['a'], []] 2 none

/-- C4: the claim says the stored entries are always in ascending
lexicographic (byte) order of FlatKeys, each FlatKey at most once, and that
the binary search compares FlatKeys lexicographically.  The code's search
compares with String.prototype.localeCompare — locale (UCA root) collation,
modelled by localeCompareRoot — not byte order.  Evaluating the store under
that comparison at the failing inputs: after set "B" then set "a" the store
holds a before B, although byte order (klt, the code-point lexicographic
order the claim asserts) puts B strictly before a, so the sequence is not
byte-sorted; and the distinct flat keys "a" and "a" followed by the
separator collate equal, so the second set replaces the first entry instead
of inserting a second one. -/
theorem C4_localeCompare_breaks_byte_order :
    storeKeys collationOrderStore = [['a'], ['B']] ∧
    klt ['B'] ['a'] ∧ ¬ klt ['a'] ['B'] ∧
    localeCompareRoot ['a'] ['B'] = .lt ∧
    joinKey [['a'], []] ≠ joinKey [['a']] ∧
    localeCompareRoot (joinKey [['a'], []]) (joinKey [['a']]) = .eq ∧
    storeKeys collationCollisionStore = [['a', SEPERATOR]] := by
  refine ⟨by decide, by decide, by decide, by decide, by decide, by decide,
    by decide⟩

/-- C5 counterexample: the claim says the sequence produced by scan is the
snapshot of matching unexpired entries at call time and that removes issued
by invalidateKeys between yields do not change which entries are yielded.
On the concrete store with tokens t1, t2 for subject a, the interleaved
consumption (invalidateKeys) yields only t1 while the same scan consumed
without interleaved mutation yields t1 and t2. -/
theorem C5_interleaved_scan_counterexample :
    (invalidateKeys refreshStoreAB 5 "a".toList).1 ≠
      (memScan refreshStoreAB 5 ["oauth:refresh".toList, "a".toList]).map
        Prod.fst := by
  decide

/-- C5 (amended): when the store is not mutated while the sequence is
consumed, scan(prefix) yields exactly the entries of the store at call time
whose flat key starts with joinKey(prefix) and that are unexpired, as
(splitKey key, value) pairs; removes interleaved between yields (as issued
by invalidateKeys) can instead skip matching entries. -/
theorem C5_scan_snapshot_amended (V : Type) (st : Store V) (now : Nat)
    (pfx : List Seg) (p : List Seg × V) :
    p ∈ memScan st now pfx ↔
      ∃ k : Key, ∃ e : StoreEntry V, (k, e) ∈ st ∧
        keyStartsWith k (joinKey pfx) = true ∧
        entryExpired e.expiry now = false ∧ p = (splitKey k, e.value) :=
  memScan_mem_iff st now pfx p

/-- Witness for C5 (amended): a concrete unexpired entry is yielded by a
scan over the empty prefix. -/
theorem C5_scan_snapshot_witness :
    (splitKey ['x'], (5 : Nat)) ∈
      memScan [(['x'], StoreEntry.mk (5 : Nat) none)] 0 [] :=
  (C5_scan_snapshot_amended Nat [(['x'], StoreEntry.mk 5 none)] 0 []
      (splitKey ['x'], 5)).mpr
    ⟨['x'], StoreEntry.mk 5 none, List.mem_cons_self _ _, rfl, rfl, rfl⟩

/-- C6 counterexample: the claim quantifies over every sequence of segments
without the separator, but for the empty sequence the round trip fails:
joinKey [] is the empty string, and splitting the empty string yields the
one-element sequence containing the empty segment, not the empty sequence
(JavaScript "".split(sep) is [""]). -/
theorem C6_empty_key_counterexample :
    splitKey (joinKey ([] : List Seg)) = [[]] ∧
    ([[]] : List Seg) ≠ ([] : List Seg) := by
  refine ⟨by decide, by decide⟩

/-- C6 (amended): for every nonempty sequence of segments none of which
contains the separator character, splitKey inverts joinKey. -/
theorem C6_split_join_inverse_amended (xs : List Seg) (hne : xs ≠ [])
    (hsep : ∀ s ∈ xs, SEPERATOR ∉ s) : splitKey (joinKey xs) = xs :=
  splitKey_joinKey xs hne hsep

/-- Witness for C6: the amended round trip evaluated on a concrete pair of
segments. -/
theorem C6_split_join_inverse_witness :
    ([['a'], ['b']] : List Seg) ≠ [] ∧
    splitKey (joinKey [['a'], ['b']]) = [['a'], ['b']] :=
  ⟨by decide, C6_split_join_inverse_amended [['a'], ['b']] (by decide) (by decide)⟩

/-- C7: on a store satisfying the sortedness invariant, set(k, v) with no
expiry or an expiry still in the future, immediately followed by get(k),
returns v. -/
theorem C7_set_then_get (V : Type) (st : Store V) (key : List Seg) (v : V)
    (e : Option Nat) (now : Nat) (hs : StoreSorted st)
    (hexp : ∀ x : Nat, e = some x → now < x) :
    (memGet (memSet st key v e) now key).1 = some v :=
  memGet_memSet_self st hs key v e now hexp

/-- Witness for C7: set then get on the empty store, without and with a
future expiry. -/
theorem C7_set_then_get_witness :
    StoreSorted ([] : Store Nat) ∧
    (memGet (memSet ([] : Store Nat) [['k']] 7 none) 0 [['k']]).1 = some 7 ∧
    (memGet (memSet ([] : Store Nat) [['k']] 7 (some 50)) 10 [['k']]).1 = some 7 :=
  ⟨empty_sorted,
    C7_set_then_get Nat [] [['k']] 7 none 0 empty_sorted (fun x hx => nomatch hx),
    C7_set_then_get Nat [] [['k']] 7 (some 50) 10 empty_sorted
      (fun x hx => by injection hx with h; omega)⟩

/-- Store with one entry whose expiry timestamp 0 lies in the past (exactly
what the facade's setRefreshToken with ttl 0 produces). -/
def zeroExpiryStore : Store Nat := [(['k'], StoreEntry.mk 5 (some 0))]

/-- C8 counterexample: the claim covers every key whose entry's expiry has
passed, but an entry stored with expiry 0 is falsy in the truthiness test
(entry.expiry && Date.now() >= entry.expiry), so at time 10 — the timestamp
0 long passed — get returns the value, removes nothing, saves nothing, and
scan still yields the key, contradicting the claimed absent-and-remove and
omit behavior. -/
theorem C8_zero_expiry_counterexample :
    memGet zeroExpiryStore 10 (splitKey ['k']) = (some 5, zeroExpiryStore, false) ∧
    (splitKey ['k'], 5) ∈ memScan zeroExpiryStore 10 [] := by
  refine ⟨by decide, by decide⟩

/-- C8 (amended): on a sorted store, get of a key whose entry has a nonzero
expiry that has passed returns absent, removes exactly that entry (the
splice at the found index) and triggers a persistence save (third component
true), while scan over any prefix merely omits that key from its output;
scan is a pure function of the store in this embedding (it performs no
mutation and no save), so the store is untouched by it.  An entry whose
stored expiry is the number 0 is falsy in JavaScript and is treated as
having no expiry at all, so the lazy-expiry behavior does not apply to it
(see the counterexample above). -/
theorem C8_expired_get_removes_scan_omits (V : Type) (st : Store V) (now : Nat)
    (k : Key) (e : StoreEntry V) (x : Nat) (hs : StoreSorted st)
    (hmem : (k, e) ∈ st) (hx : e.expiry = some x) (h0 : x ≠ 0) (hn : x ≤ now) :
    st[(search (storeKeys st) k).index]? = some (k, e) ∧
    memGet st now (splitKey k) =
      (none, spliceOut st (search (storeKeys st) k).index, true) ∧
    ∀ pfx : List Seg, ∀ p ∈ memScan st now pfx, p.1 ≠ splitKey k := by
  have hexp : entryExpired e.expiry now = true := by
    rw [hx]
    simp only [entryExpired, Bool.and_eq_true, bne_iff_ne, ne_eq,
      decide_eq_true_eq]
    exact ⟨h0, hn⟩
  obtain ⟨h1, h2⟩ := memGet_expired_removes st hs now hmem hexp
  exact ⟨h1, h2, fun pfx => memScan_not_mem_expired st hs now hmem hexp pfx⟩

theorem expiredStore_sorted : StoreSorted expiredStore := by
  unfold StoreSorted SortedKeys storeKeys expiredStore
  simp

/-- Witness for C8: the singleton store with an entry expired at time 3,
read at time 10: the value is absent, the store is emptied with a save, and
a scan over the empty prefix omits the key. -/
theorem C8_expired_get_witness :
    StoreSorted expiredStore ∧
    (['k'], StoreEntry.mk (5 : Nat) (some 3)) ∈ expiredStore ∧
    (memGet expiredStore 10 (splitKey ['k'])).1 = none ∧
    (memGet expiredStore 10 (splitKey ['k'])).2.2 = true := by
  have h := C8_expired_get_removes_scan_omits Nat expiredStore 10 ['k']
    (StoreEntry.mk 5 (some 3)) 3 expiredStore_sorted
    (List.mem_cons_self _ _) rfl (by decide) (by decide)
  refine ⟨expiredStore_sorted, List.mem_cons_self _ _, ?_, ?_⟩
  · rw [h.2.1]
  · rw [h.2.1]

/-- C9: refresh(refreshToken, options) short-circuits with no tokens, no
error and no network request when the supplied access token's decoded exp
claim is more than 30 seconds in the future; otherwise it makes exactly one
POST to the token endpoint, returning the new token pair on a 2xx response
and InvalidRefreshToken on any non-success response. -/
theorem C9_refresh_behaviour (env : RefreshEnv) (nowMs : Nat) (rtok : Tok)
    (a : Tok) :
    (1000 * env.decodeExp a > nowMs + 30000 →
      refresh env nowMs rtok (some a) = (.noRefresh, 0)) ∧
    (1000 * env.decodeExp a ≤ nowMs + 30000 →
      refresh env nowMs rtok (some a) = (refreshPost env rtok, 1)) ∧
    refresh env nowMs rtok none = (refreshPost env rtok, 1) ∧
    (∀ x y : Tok, env.endpointOk rtok = some (x, y) →
      refreshPost env rtok = .tokens x y) ∧
    (env.endpointOk rtok = none →
      refreshPost env rtok = .invalidRefreshToken) := by
  refine ⟨?_, ?_, rfl, ?_, ?_⟩
  · intro h
    simp only [refresh]
    rw [if_pos h]
  · intro h
    simp only [refresh]
    rw [if_neg (by omega)]
  · intro x y hxy
    simp only [refreshPost, hxy]
  · intro hnone
    simp only [refreshPost, hnone]

/-- Witness for C9: with exp claims equal to the token number, token 100 at
time 0 still has more than 30 seconds of validity (no network call), while
token 10 does not, so one POST is made and the endpoint's pair returned. -/
theorem C9_refresh_witness :
    refresh refreshEnvExample 0 5 (some 100) = (.noRefresh, 0) ∧
    refresh refreshEnvExample 0 5 (some 10) = (.tokens 6 7, 1) := by
  constructor
  · exact (C9_refresh_behaviour refreshEnvExample 0 5 100).1 (by decide)
  · exact (C9_refresh_behaviour refreshEnvExample 0 5 10).2.1 (by decide)

/-- C10: for every authorization code (respectively subject and token pair)
whose entry is not in the sorted store or is expired there, getOauthCode and
getRefreshToken resolve to absent (none) rather than failing, although the
StorageAdapter interface declares their results non-optional.  In this
embedding the operations are total functions into Option: no execution path
throws. -/
theorem C10_get_absent_returns_none (V : Type) (st : Store V) (now : Nat)
    (code subject token : Seg) (hs : StoreSorted st)
    (hc : ∀ e : StoreEntry V, (joinKey (encode [oauthCodeNS, code]), e) ∈ st →
      entryExpired e.expiry now = true)
    (hr : ∀ e : StoreEntry V,
      (joinKey (encode [oauthRefreshNS, subject, token]), e) ∈ st →
      entryExpired e.expiry now = true) :
    (getOauthCode st now code).1 = none ∧
    (getRefreshToken st now subject token).1 = none :=
  ⟨memGet_none_of_expired st hs now _ hc, memGet_none_of_expired st hs now _ hr⟩

/-- Witness for C10: on the empty store every lookup is absent. -/
theorem C10_get_absent_witness :
    StoreSorted ([] : Store Nat) ∧
    (getOauthCode ([] : Store Nat) 0 ['c']).1 = none ∧
    (getRefreshToken ([] : Store Nat) 0 ['s'] ['t']).1 = none := by
  have h := C10_get_absent_returns_none Nat [] 0 ['c'] ['s'] ['t'] empty_sorted
    (fun e he => nomatch he) (fun e he => nomatch he)
  exact ⟨empty_sorted, h.1, h.2⟩

end OpenAuth
